import Mathlib

/-!
Verification of the WORD_CARD_APP spaced-repetition core.

Shallow embedding conventions:
* SQLite REAL (Python float) values are modelled as exact rationals; the
  claims settled here only involve clamped arithmetic on the values
  2.5, 0.2, 0.15, 1.3 and small products such as 7 * 2.5, where float and
  rational arithmetic agree exactly.
* Timestamps (datetime values) are modelled as rationals measured in days:
  the integer part is the calendar day, the fractional part the time of
  day.  Subtracting timedelta(days := 1) is subtracting 1.
* Python int() truncates toward zero; this is pyInt below.
* The words table is a list of rows unique by the word column; INSERT OR
  IGNORE is modelled by a membership test on that column.
-/

namespace WordCard

/-- Row of the words table, as read back by _row_to_dict in db_manager.py
(interval_days is exposed under the key interval; mastered as a Bool).
Timestamps are rationals in days, None is Option.none. -/
structure Word where
  word : String
  meaning : String
  review_count : ℤ
  ease_factor : ℚ
  interval : ℤ
  next_review : Option ℚ
  mastered : Bool
  last_review : Option ℚ
deriving Repr, DecidableEq

/-- Python int() applied to a rational: truncation toward zero
(num and den are in lowest terms with den positive, so truncated
division of num by den is exactly trunc). -/
def pyInt (q : ℚ) : ℤ :=
  q.num.tdiv q.den

/-- rate_word (word_manager.py lines 127-169), restricted to the update of
the current word row.  quality is the raw integer the UI passes
(1 = forgot, anything else falls into the else branch, the code comments
say 2 = mastered); now is datetime.now().  Field by field translation:
review_count is incremented first; the quality = 1 branch resets the
interval, lowers the ease factor with a 1.3 floor, clears mastered and
schedules for yesterday; the else branch walks the 1/3/7 ladder on the
incremented count, otherwise multiplies the PRIOR interval by the PRIOR
ease factor and truncates with int(), then raises the ease factor with a
2.5 cap, then sets mastered when interval >= 30 and review_count >= 5
(leaving it unchanged otherwise), and schedules interval days ahead. -/
def rate_word (quality : ℤ) (now : ℚ) (w : Word) : Word :=
  let review_count := w.review_count + 1
  if quality = 1 then
    { w with
        review_count := review_count
        interval := 1
        ease_factor := max (13/10) (w.ease_factor - 1/5)
        mastered := false
        next_review := some (now - 1)
        last_review := some now }
  else
    let interval : ℤ :=
      if review_count = 1 then 1
      else if review_count = 2 then 3
      else if review_count = 3 then 7
      else pyInt ((w.interval : ℚ) * w.ease_factor)
    let mastered := if 30 ≤ interval ∧ 5 ≤ review_count then true else w.mastered
    { w with
        review_count := review_count
        interval := interval
        ease_factor := min (5/2) (w.ease_factor + 3/20)
        mastered := mastered
        next_review := some (now + (interval : ℚ))
        last_review := some now }

/-- The concrete word of the spec scenario: fresh row with the schema
defaults review_count 0, ease_factor 2.5, interval_days 1. -/
def runWord : Word :=
  { word := "run", meaning := "to move fast", review_count := 0,
    ease_factor := 5/2, interval := 1, next_review := none,
    mastered := false, last_review := none }

/-- The word "run" after n consecutive Mastered (quality 2) ratings. -/
def runAfter (n : ℕ) : Word :=
  (fun w => rate_word 2 0 w)^[n] runWord

theorem runAfter_succ (n : ℕ) : runAfter (n + 1) = rate_word 2 0 (runAfter n) :=
  Function.iterate_succ_apply' _ _ _

theorem pyInt_eq_floor (q : ℚ) (h : 0 ≤ q) : pyInt q = ⌊q⌋ := by
  have hnum : 0 ≤ q.num := Rat.num_nonneg.mpr h
  rw [pyInt, Int.tdiv_eq_ediv hnum (Int.ofNat_nonneg q.den), Rat.floor_def]

theorem runAfter_one :
    runAfter 1 = ⟨"run", "to move fast", 1, 5/2, 1, some 1, false, some 0⟩ := by
  rw [runAfter_succ]
  norm_num [runAfter, rate_word, runWord, min_def, max_def]

theorem runAfter_two :
    runAfter 2 = ⟨"run", "to move fast", 2, 5/2, 3, some 3, false, some 0⟩ := by
  rw [runAfter_succ, runAfter_one]
  norm_num [rate_word, min_def, max_def]

theorem runAfter_three :
    runAfter 3 = ⟨"run", "to move fast", 3, 5/2, 7, some 7, false, some 0⟩ := by
  rw [runAfter_succ, runAfter_two]
  norm_num [rate_word, min_def, max_def]

theorem runAfter_four :
    runAfter 4 = ⟨"run", "to move fast", 4, 5/2, 17, some 17, false, some 0⟩ := by
  rw [runAfter_succ, runAfter_three]
  norm_num [rate_word, min_def, max_def, pyInt]
  decide

theorem runAfter_five :
    runAfter 5 = ⟨"run", "to move fast", 5, 5/2, 42, some 42, true, some 0⟩ := by
  rw [runAfter_succ, runAfter_four]
  norm_num [rate_word, min_def, max_def, pyInt]
  decide

/-- C1: for a Mastered rating the new interval follows the fixed ladder
1 / 3 / 7 for post-increment review counts 1, 2, 3 independently of the
ease factor, and from the 4th successful rating on it is the floor of
pre-update interval times pre-update ease factor; starting from
review_count 0, interval 1, ease_factor 2.5, five consecutive Mastered
ratings give the intervals 1, 3, 7, 17, 42 and mastered becomes true only
after the 5th. -/
theorem rate_word_mastered_ladder (q : ℤ) (w : Word) (now : ℚ) (hq : q ≠ 1) :
    ((w.review_count = 0 → (rate_word q now w).interval = 1) ∧
     (w.review_count = 1 → (rate_word q now w).interval = 3) ∧
     (w.review_count = 2 → (rate_word q now w).interval = 7) ∧
     (3 ≤ w.review_count → 0 ≤ (w.interval : ℚ) * w.ease_factor →
       (rate_word q now w).interval = ⌊(w.interval : ℚ) * w.ease_factor⌋)) ∧
    ((runAfter 1).interval = 1 ∧ (runAfter 2).interval = 3 ∧
     (runAfter 3).interval = 7 ∧ (runAfter 4).interval = 17 ∧
     (runAfter 5).interval = 42 ∧
     (∀ k ≤ 4, (runAfter k).mastered = false) ∧
     (runAfter 5).mastered = true) := by
  refine ⟨⟨?_, ?_, ?_, ?_⟩, ?_, ?_, ?_, ?_, ?_, ?_, ?_⟩
  · intro h; norm_num [rate_word, hq, h]
  · intro h; norm_num [rate_word, hq, h]
  · intro h; norm_num [rate_word, hq, h]
  · intro h3 hp
    have h1 : ¬ (w.review_count + 1 = 1) := by omega
    have h2 : ¬ (w.review_count + 1 = 2) := by omega
    have h4 : ¬ (w.review_count + 1 = 3) := by omega
    simp [rate_word, hq, h1, h2, h4, pyInt_eq_floor _ hp]
  · rw [runAfter_one]
  · rw [runAfter_two]
  · rw [runAfter_three]
  · rw [runAfter_four]
  · rw [runAfter_five]
  · intro k hk
    interval_cases k
    · simp [runAfter, runWord]
    · rw [runAfter_one]
    · rw [runAfter_two]
    · rw [runAfter_three]
    · rw [runAfter_four]
  · rw [runAfter_five]

/-- Witness for rate_word_mastered_ladder at quality 2 and a concrete word. -/
theorem rate_word_mastered_ladder_witness :
    (rate_word 2 0 ⟨"a", "b", 0, 5/2, 1, none, false, none⟩).interval = 1 :=
  (rate_word_mastered_ladder 2 ⟨"a", "b", 0, 5/2, 1, none, false, none⟩ 0
    (by decide)).1.1 rfl

/-- C2 counterexample: a word whose stored mastered flag is already true
and whose review_count is 0 (such rows are insertable by
migrate_from_json) keeps mastered = true after a Mastered rating even
though the new interval is 1 and the new review count is 1, so the
resulting flag does not equal the predicate interval >= 30 and
review_count >= 5 claimed by the spec. -/
theorem rate_word_mastered_not_predicate :
    ¬ ((rate_word 2 0 ⟨"w", "m", 0, 5/2, 1, none, true, none⟩).mastered = true ↔
       (30 ≤ (rate_word 2 0 ⟨"w", "m", 0, 5/2, 1, none, true, none⟩).interval ∧
        5 ≤ (rate_word 2 0 ⟨"w", "m", 0, 5/2, 1, none, true, none⟩).review_count)) := by
  norm_num [rate_word]

/-- C2 amended: on a Mastered rating the code only latches the flag,
mastered' = mastered OR (interval' >= 30 AND review_count' >= 5); the
spec's equality holds exactly when the prior flag was false. -/
theorem rate_word_mastered_latch (q : ℤ) (w : Word) (now : ℚ) (hq : q ≠ 1) :
    ((rate_word q now w).mastered = true ↔
      (w.mastered = true ∨
       (30 ≤ (rate_word q now w).interval ∧
        5 ≤ (rate_word q now w).review_count))) ∧
    (w.mastered = false →
      ((rate_word q now w).mastered = true ↔
        (30 ≤ (rate_word q now w).interval ∧
         5 ≤ (rate_word q now w).review_count))) := by
  simp only [rate_word, if_neg hq]
  constructor
  · split_ifs with h <;> simp_all
  · intro hm
    split_ifs with h <;> simp_all

/-- Witness for rate_word_mastered_latch at quality 2 and a concrete word. -/
theorem rate_word_mastered_latch_witness :
    (rate_word 2 0 ⟨"a", "b", 0, 5/2, 1, none, false, none⟩).mastered = true ↔
      (30 ≤ (rate_word 2 0 ⟨"a", "b", 0, 5/2, 1, none, false, none⟩).interval ∧
       5 ≤ (rate_word 2 0 ⟨"a", "b", 0, 5/2, 1, none, false, none⟩).review_count) :=
  (rate_word_mastered_latch 2 ⟨"a", "b", 0, 5/2, 1, none, false, none⟩ 0
    (by decide)).2 rfl

theorem ease_factor_step (q : ℤ) (now : ℚ) (w : Word)
    (h1 : 13/10 ≤ w.ease_factor) (h2 : w.ease_factor ≤ 5/2) :
    13/10 ≤ (rate_word q now w).ease_factor ∧
      (rate_word q now w).ease_factor ≤ 5/2 := by
  by_cases hq : q = 1
  · simp only [rate_word, if_pos hq]
    exact ⟨le_max_left _ _, max_le (by norm_num) (by linarith)⟩
  · simp only [rate_word, if_neg hq]
    exact ⟨le_min (by norm_num) (by linarith), min_le_left _ _⟩

/-- C4: the ease factor stays in the closed range [1.3, 2.5] under every
finite sequence of ratings, because Forgot clamps from below with
max(1.3, e - 0.2) and Mastered clamps from above with min(2.5, e + 0.15). -/
theorem ease_factor_bounds (qs : List ℤ) (now : ℚ) (w : Word)
    (h1 : 13/10 ≤ w.ease_factor) (h2 : w.ease_factor ≤ 5/2) :
    (13/10 ≤ (qs.foldl (fun v q => rate_word q now v) w).ease_factor ∧
     (qs.foldl (fun v q => rate_word q now v) w).ease_factor ≤ 5/2) ∧
    (rate_word 1 now w).ease_factor = max (13/10) (w.ease_factor - 1/5) ∧
    (rate_word 2 now w).ease_factor = min (5/2) (w.ease_factor + 3/20) := by
  refine ⟨?_, ?_, ?_⟩
  · induction qs generalizing w with
    | nil => exact ⟨h1, h2⟩
    | cons q qs ih =>
      simp only [List.foldl_cons]
      obtain ⟨a, b⟩ := ease_factor_step q now w h1 h2
      exact ih _ a b
  · simp [rate_word]
  · norm_num [rate_word]

/-- Witness for ease_factor_bounds on the two-rating sequence
Forgot then Mastered starting from the fresh word. -/
theorem ease_factor_bounds_witness :
    13/10 ≤ (([1, 2] : List ℤ).foldl (fun v q => rate_word q 0 v) runWord).ease_factor :=
  (ease_factor_bounds [1, 2] 0 runWord (by norm_num [runWord])
    (by norm_num [runWord])).1.1

/-- Models the due test of get_statistics (db_manager.py lines 283-288):
next_review IS NULL OR next_review <= today, where today is the bare
ISO date YYYY-MM-DD and next_review is a full isoformat() timestamp.
Under SQLite BINARY collation (memcmp) a well-formed fixed-width ISO
timestamp string compares below a bare date string exactly when its
calendar day strictly precedes that date; on the shared day the
timestamp extends the date with a T and a time of day and therefore
compares strictly greater.  At the day-number level of this embedding
the test is thus floor(next_review) < today.  The raw string comparison
itself is modelled separately by sqlTextLe and isDueRow below, and the
agreement of the two models on sample well-formed strings is checked in
sqlTextLe_samples. -/
def sqlDueQ (next_review : Option ℚ) (today : ℤ) : Bool :=
  match next_review with
  | none => true
  | some t => decide (⌊t⌋ < today)

/-- Number of words the statistics query counts as due, over a list of
rows and a query day. -/
def dueCount (store : List Word) (today : ℤ) : ℕ :=
  (store.filter (fun w => sqlDueQ w.next_review today)).length

/-- C5: a single Forgot rating, on any word whatever its prior state,
clears mastered, resets the interval to 1, lowers the ease factor to
max(1.3, e - 0.2) and schedules next_review one day in the past, whose
calendar day is at most today, so the word is due again at once. -/
theorem rate_word_forgot_resets (w : Word) (now : ℚ) :
    (rate_word 1 now w).mastered = false ∧
    (rate_word 1 now w).interval = 1 ∧
    (rate_word 1 now w).ease_factor = max (13/10) (w.ease_factor - 1/5) ∧
    (rate_word 1 now w).next_review = some (now - 1) ∧
    ⌊now - 1⌋ ≤ ⌊now⌋ ∧
    sqlDueQ (rate_word 1 now w).next_review ⌊now⌋ = true := by
  have hfl : ⌊now - 1⌋ = ⌊now⌋ - 1 := by
    rw [show (1 : ℚ) = ((1 : ℤ) : ℚ) by norm_num, Int.floor_sub_int]
  refine ⟨?_, ?_, ?_, ?_, ?_, ?_⟩
  · simp [rate_word]
  · simp [rate_word]
  · simp [rate_word]
  · simp [rate_word]
  · omega
  · simp only [rate_word, if_pos rfl, sqlDueQ, hfl]
    simp

/-- C9: rate_word branches only on quality == 1; every other integer
quality is handled by the Mastered branch, yielding exactly the state
quality 2 yields, and quality 1 yields the Forgot reset; no quality
value is rejected (the transition is total in the quality argument). -/
theorem rate_word_quality_dispatch (q : ℤ) (w : Word) (now : ℚ) :
    (q ≠ 1 → rate_word q now w = rate_word 2 now w) ∧
    ((rate_word 1 now w).interval = 1 ∧
     (rate_word 1 now w).mastered = false ∧
     (rate_word 1 now w).next_review = some (now - 1)) := by
  constructor
  · intro hq
    simp only [rate_word, if_neg hq, if_neg (by decide : ¬ ((2 : ℤ) = 1))]
  · simp [rate_word]

/-- Witness for rate_word_quality_dispatch at the quality value 5. -/
theorem rate_word_quality_dispatch_witness :
    rate_word 5 0 runWord = rate_word 2 0 runWord :=
  (rate_word_quality_dispatch 5 runWord 0).1 (by decide)

/-- In-memory session state of WordManager: the cached word list and the
persisted current_index (an arbitrary integer as stored in app_state). -/
structure MState where
  words : List Word
  current_index : ℤ
deriving Repr, DecidableEq

/-- next_word (word_manager.py lines 80-85): no-op on an empty list,
otherwise current_index becomes (current_index + 1) % len(words)
(Python % is floored modulo, nonnegative for a positive divisor,
matching Int.emod). -/
def next_word (st : MState) : MState :=
  if st.words.isEmpty then st
  else { st with current_index := (st.current_index + 1) % (st.words.length : ℤ) }

/-- prev_word (word_manager.py lines 73-78): no-op on an empty list,
otherwise current_index becomes (current_index - 1) % len(words). -/
def prev_word (st : MState) : MState :=
  if st.words.isEmpty then st
  else { st with current_index := (st.current_index - 1) % (st.words.length : ℤ) }

/-- C10: after next_word or prev_word on a non-empty list the stored
index lies in [0, N-1] even if the prior persisted index was out of
range, and on an empty list both calls leave the state unchanged. -/
theorem nav_index_in_range (st : MState) :
    (st.words ≠ [] →
      (0 ≤ (next_word st).current_index ∧
       (next_word st).current_index < st.words.length ∧
       0 ≤ (prev_word st).current_index ∧
       (prev_word st).current_index < st.words.length)) ∧
    (st.words = [] → next_word st = st ∧ prev_word st = st) := by
  constructor
  · intro h
    have hne : st.words.isEmpty = false := by
      simp [List.isEmpty_iff, h]
    have hlen : ((st.words.length : ℤ)) ≠ 0 := by
      have := List.length_pos.mpr h
      omega
    have hpos : (0 : ℤ) < (st.words.length : ℤ) := by
      have := List.length_pos.mpr h
      omega
    simp only [next_word, prev_word, hne, Bool.false_eq_true, if_false]
    exact ⟨Int.emod_nonneg _ hlen, Int.emod_lt_of_pos _ hpos,
           Int.emod_nonneg _ hlen, Int.emod_lt_of_pos _ hpos⟩
  · intro h
    simp [next_word, prev_word, h]

/-- Witness for nav_index_in_range on a one-word list with a persisted
index far out of range. -/
theorem nav_index_in_range_witness :
    0 ≤ (next_word ⟨[runWord], 99⟩).current_index ∧
      (next_word ⟨[runWord], 99⟩).current_index < ([runWord] : List Word).length :=
  ⟨((nav_index_in_range ⟨[runWord], 99⟩).1 (by simp)).1,
   ((nav_index_in_range ⟨[runWord], 99⟩).1 (by simp)).2.1⟩

/-- Membership test on the unique word column, modelling the UNIQUE
constraint consulted by INSERT OR IGNORE. -/
def hasTerm (store : List Word) (t : String) : Bool :=
  store.any (fun w => w.word = t)

/-- Row inserted by add_word and batch_add_words (db_manager.py lines
99-153): scheduling columns take the schema defaults (review_count 0,
ease_factor 2.5, interval_days 1, mastered 0, last_review NULL) and
next_review is explicitly set to now - timedelta(days = 1). -/
def newWord (t m : String) (now : ℚ) : Word :=
  { word := t, meaning := m, review_count := 0, ease_factor := 5/2,
    interval := 1, next_review := some (now - 1), mastered := false,
    last_review := none }

/-- add_word (db_manager.py lines 99-112): INSERT OR IGNORE keyed on the
unique word column; on conflict nothing is inserted and None is
returned, otherwise the new row is appended and its rowid returned
(modelled as the new length). -/
def add_word (store : List Word) (t m : String) (now : ℚ) :
    List Word × Option ℕ :=
  if hasTerm store t then (store, none)
  else (store ++ [newWord t m now], some (store.length + 1))

/-- Single INSERT OR IGNORE step of batch_add_words, returning the new
table and whether cursor.rowcount reported an inserted row. -/
def insertIgnore (store : List Word) (t m : String) (now : ℚ) :
    List Word × Bool :=
  if hasTerm store t then (store, false)
  else (store ++ [newWord t m now], true)

/-- Loop of batch_add_words (db_manager.py lines 114-153) over the
remaining pairs, carrying the table and the added counter.  All inserts
run on one connection, so a row inserted earlier in the same call is
visible to the duplicate check of later pairs; the batch_size chunking
only groups commits and does not change which rows are inserted, so it
is dropped from the embedding. -/
def batchAux (now : ℚ) : List Word → ℕ → List (String × String) → List Word × ℕ
  | store, n, [] => (store, n)
  | store, n, p :: ps =>
      let r := insertIgnore store p.1 p.2 now
      batchAux now r.1 (n + if r.2 then 1 else 0) ps

/-- batch_add_words: fold the INSERT OR IGNORE step over the pairs,
starting from an added count of 0, and return (table, count added). -/
def batch_add_words (store : List Word) (pairs : List (String × String))
    (now : ℚ) : List Word × ℕ :=
  batchAux now store 0 pairs

theorem hasTerm_append (s u : List Word) (t : String) :
    hasTerm (s ++ u) t = (hasTerm s t || hasTerm u t) := by
  simp [hasTerm]

theorem hasTerm_insertIgnore_self (s : List Word) (t m : String) (now : ℚ) :
    hasTerm (insertIgnore s t m now).1 t = true := by
  unfold insertIgnore
  split_ifs with h
  · exact h
  · simp [hasTerm_append, hasTerm, newWord]

theorem hasTerm_insertIgnore_mono (s : List Word) (t t' m : String) (now : ℚ)
    (h : hasTerm s t = true) :
    hasTerm (insertIgnore s t' m now).1 t = true := by
  unfold insertIgnore
  split_ifs
  · exact h
  · simp [hasTerm_append, h]

theorem batchAux_hasTerm_mono (now : ℚ) (ps : List (String × String)) :
    ∀ (s : List Word) (n : ℕ) (t : String), hasTerm s t = true →
      hasTerm (batchAux now s n ps).1 t = true := by
  induction ps with
  | nil => intro s n t h; exact h
  | cons p ps ih =>
    intro s n t h
    simp only [batchAux]
    exact ih _ _ _ (hasTerm_insertIgnore_mono s t p.1 p.2 now h)

theorem batchAux_all_present (now : ℚ) (ps : List (String × String)) :
    ∀ (s : List Word) (n : ℕ) (p : String × String), p ∈ ps →
      hasTerm (batchAux now s n ps).1 p.1 = true := by
  induction ps with
  | nil => intro s n p hp; cases hp
  | cons q ps ih =>
    intro s n p hp
    rcases List.mem_cons.mp hp with h | h
    · subst h
      simp only [batchAux]
      exact batchAux_hasTerm_mono now ps _ _ _
        (hasTerm_insertIgnore_self s p.1 p.2 now)
    · simp only [batchAux]
      exact ih _ _ _ h

theorem batchAux_noop (now : ℚ) (ps : List (String × String)) :
    ∀ (s : List Word) (n : ℕ), (∀ p ∈ ps, hasTerm s p.1 = true) →
      batchAux now s n ps = (s, n) := by
  induction ps with
  | nil => intro s n _; rfl
  | cons q ps ih =>
    intro s n h
    have hq : hasTerm s q.1 = true := h q (List.mem_cons_self q ps)
    simp only [batchAux, insertIgnore, hq, if_true]
    exact ih s n (fun p hp => h p (List.mem_cons_of_mem q hp))

/-- C7: batch_add_words is idempotent on the word table; a second run
with the same pairs inserts nothing, returns 0 added, and leaves the
table unchanged. -/
theorem batch_add_words_idempotent (store : List Word)
    (pairs : List (String × String)) (now now2 : ℚ) :
    batch_add_words (batch_add_words store pairs now).1 pairs now2 =
      ((batch_add_words store pairs now).1, 0) := by
  unfold batch_add_words
  exact batchAux_noop now2 pairs _ 0
    (fun p hp => batchAux_all_present now pairs store 0 p hp)

/-- C6: a successful add_word appends exactly one row whose next_review
is one day before the creation time, whose calendar day is at most the
creation day, and which the statistics due test counts, so dueCount
grows by one. -/
theorem add_word_immediately_due (store : List Word) (t m : String) (now : ℚ)
    (h : (add_word store t m now).2 ≠ none) :
    (add_word store t m now).1 = store ++ [newWord t m now] ∧
    (newWord t m now).next_review = some (now - 1) ∧
    ⌊now - 1⌋ ≤ ⌊now⌋ ∧
    sqlDueQ (newWord t m now).next_review ⌊now⌋ = true ∧
    dueCount (add_word store t m now).1 ⌊now⌋ = dueCount store ⌊now⌋ + 1 := by
  have hfl : ⌊now - 1⌋ = ⌊now⌋ - 1 := by
    rw [show (1 : ℚ) = ((1 : ℤ) : ℚ) by norm_num, Int.floor_sub_int]
  have hterm : hasTerm store t = false := by
    by_contra hc
    have : hasTerm store t = true := by
      cases hht : hasTerm store t
      · exact absurd hht hc
      · rfl
    simp [add_word, this] at h
  have hdue : sqlDueQ (newWord t m now).next_review ⌊now⌋ = true := by
    simp only [newWord, sqlDueQ, hfl]
    simp
  refine ⟨?_, rfl, by omega, hdue, ?_⟩
  · simp [add_word, hterm]
  · simp only [add_word, hterm, Bool.false_eq_true, if_false, dueCount,
      List.filter_append, List.length_append]
    simp [hdue]

/-- Witness for add_word_immediately_due: adding to the empty table at
time 0 succeeds and raises dueCount from 0 to 1. -/
theorem add_word_immediately_due_witness :
    dueCount (add_word [] "run" "to move fast" 0).1 ⌊(0 : ℚ)⌋ =
      dueCount ([] : List Word) ⌊(0 : ℚ)⌋ + 1 :=
  (add_word_immediately_due [] "run" "to move fast" 0
    (by simp [add_word, hasTerm])).2.2.2.2

/-- Lexicographic byte comparison a <= b on ASCII character lists,
exactly the order SQLite's default BINARY collation (memcmp, with the
shorter string smaller when one is a prefix of the other) applies to the
TEXT comparison next_review <= today in get_statistics. -/
def memcmpLe (a b : List Char) : Bool :=
  match a, b with
  | [], _ => true
  | _ :: _, [] => false
  | c :: cs, d :: ds =>
      if c.toNat < d.toNat then true
      else if d.toNat < c.toNat then false
      else memcmpLe cs ds

/-- SQLite BINARY string comparison a <= b. -/
def sqlTextLe (a b : String) : Bool :=
  memcmpLe a.data b.data

/-- Due test of get_statistics at the string level (db_manager.py lines
283-288): next_review IS NULL OR next_review <= today, with today the
bare date datetime.now().date().isoformat() and next_review the stored
full isoformat() timestamp. -/
def isDueRow (next_review : Option String) (today : String) : Bool :=
  match next_review with
  | none => true
  | some s => sqlTextLe s today

/-- First ten characters of an ISO timestamp: its YYYY-MM-DD date part. -/
def isoDatePart (s : String) : String :=
  ⟨s.data.take 10⟩

/-- Due test as the spec words it: date-only comparison, the time of day
of next_review ignored. -/
def specDueRow (next_review : Option String) (today : String) : Bool :=
  match next_review with
  | none => true
  | some s => sqlTextLe (isoDatePart s) today

/-- Validation of the day-level model sqlDueQ against the string-level
comparison: a timestamp of the preceding day compares below the bare
date, while a timestamp on the very day compares above it (its eleventh
character T extends the date prefix), as does any later day. -/
theorem sqlTextLe_samples :
    sqlTextLe "2026-10-11T23:59:59" "2026-10-12" = true ∧
    sqlTextLe "2026-10-12T00:00:00" "2026-10-12" = false ∧
    sqlTextLe "2026-10-13T00:00:00" "2026-10-12" = false := by
  decide

/-- C3: the statistics due count misses words scheduled for today.  The
stored next_review is a full timestamp, today is a bare date, and under
the BINARY string comparison a timestamp on today's date (here 08:00 on
2026-10-12) compares strictly greater than the date string, so the code
does not count the word as due, while the date-only comparison the spec
describes does; a timestamp of the previous day and a NULL are counted
by both. -/
theorem due_today_not_counted :
    isDueRow (some "2026-10-12T08:00:00") "2026-10-12" = false ∧
    specDueRow (some "2026-10-12T08:00:00") "2026-10-12" = true ∧
    isDueRow (some "2026-10-11T23:59:59") "2026-10-12" = true ∧
    isDueRow none "2026-10-12" = true := by
  decide

/-- Value found under a date key of a legacy JSON entry, as the
isinstance dispatch of migrate_from_json sees it: a string that
fromisoformat parses to some timestamp, a string it rejects with
ValueError (parsed := none), a datetime object, or anything else
(including a JSON null). -/
inductive JDate where
  | str (parsed : Option ℚ)
  | dt (t : ℚ)
  | other
deriving Repr, DecidableEq

/-- Legacy entry {word, meaning, review_count?, ease_factor?, interval?,
next_review?, mastered?, last_review?}; none models an absent key. -/
structure LegacyEntry where
  word : String
  meaning : String
  review_count : Option ℤ
  ease_factor : Option ℚ
  interval : Option ℤ
  next_review : Option JDate
  last_review : Option JDate
  mastered : Option Bool
deriving Repr, DecidableEq

/-- next_review handling of migrate_from_json (db_manager.py lines
322-331): a parsable string is stored as is, an unparsable string falls
back to datetime.now().isoformat(), a datetime is serialized, anything
else (absent key, null) falls back to now. -/
def migNextReview (v : Option JDate) (now : ℚ) : ℚ :=
  match v with
  | some (JDate.str (some t)) => t
  | some (JDate.str none) => now
  | some (JDate.dt t) => t
  | _ => now

/-- last_review handling of migrate_from_json (db_manager.py lines
333-342): a parsable string is stored as is, an unparsable string is
replaced by None, a datetime is serialized, anything else becomes None. -/
def migLastReview (v : Option JDate) : Option ℚ :=
  match v with
  | some (JDate.str (some t)) => some t
  | some (JDate.str none) => none
  | some (JDate.dt t) => some t
  | _ => none

/-- Row upserted for one legacy entry (db_manager.py lines 344-360):
missing scheduling fields default to review_count 0, ease_factor 2.5,
interval 1, mastered false. -/
def migrateEntry (e : LegacyEntry) (now : ℚ) : Word :=
  { word := e.word, meaning := e.meaning,
    review_count := e.review_count.getD 0,
    ease_factor := e.ease_factor.getD (5/2),
    interval := e.interval.getD 1,
    next_review := some (migNextReview e.next_review now),
    mastered := e.mastered.getD false,
    last_review := migLastReview e.last_review }

/-- C8 counterexample: an entry whose last_review is an unparsable
string is migrated with last_review NULL, not the current time, so the
claim that every unparsable date field is replaced by now fails (here
now = 5 and the migrated last_review is not 5). -/
theorem migrate_unparsable_last_review_dropped :
    (migrateEntry ⟨"w", "m", none, none, none, none,
        some (JDate.str none), none⟩ 5).last_review ≠ some 5 := by
  decide

/-- C8 amended: migration never fails on bad date fields, but the two
fields recover differently: an unparsable (or absent) next_review falls
back to now while an unparsable (or absent) last_review becomes NULL;
missing review_count, ease_factor and interval take the Word defaults
0, 2.5 and 1. -/
theorem migrate_recovers_locally (e : LegacyEntry) (now : ℚ) :
    ((e.next_review = some (JDate.str none) ∨ e.next_review = none) →
      (migrateEntry e now).next_review = some now) ∧
    ((e.last_review = some (JDate.str none) ∨ e.last_review = none) →
      (migrateEntry e now).last_review = none) ∧
    (e.review_count = none → (migrateEntry e now).review_count = 0) ∧
    (e.ease_factor = none → (migrateEntry e now).ease_factor = 5/2) ∧
    (e.interval = none → (migrateEntry e now).interval = 1) := by
  refine ⟨?_, ?_, ?_, ?_, ?_⟩
  · rintro (h | h) <;> simp [migrateEntry, migNextReview, h]
  · rintro (h | h) <;> simp [migrateEntry, migLastReview, h]
  · intro h; simp [migrateEntry, h]
  · intro h; simp [migrateEntry, h]
  · intro h; simp [migrateEntry, h]

/-- Witness for migrate_recovers_locally on an entry with an unparsable
next_review string and every scheduling field absent. -/
theorem migrate_recovers_locally_witness :
    (migrateEntry ⟨"w", "m", none, none, none, some (JDate.str none),
        none, none⟩ 7).next_review = some 7 ∧
    (migrateEntry ⟨"w", "m", none, none, none, some (JDate.str none),
        none, none⟩ 7).review_count = 0 :=
  ⟨(migrate_recovers_locally ⟨"w", "m", none, none, none,
      some (JDate.str none), none, none⟩ 7).1 (Or.inl rfl),
   (migrate_recovers_locally ⟨"w", "m", none, none, none,
      some (JDate.str none), none, none⟩ 7).2.2.1 rfl⟩

end WordCard
